import Mathlib

/-!
Verification of the DAG-execution core of `ddsp/processors.py`
(`Processor`, `ProcessorGroup`, and the routing processors `Add` and
`Mix`) against its natural-language specification.

The namespace threaded between DAG nodes is a Python dict mapping string
keys to either tensors or nested dicts; it is embedded as an association
list `Namespace T` of `Value T`.  Python exceptions are embedded as
`Except Err`; the tensor type is a parameter `T` for the generic engine
(instantiated at `List ℤ` for concrete examples) and `List (List ℝ)`
(batch × time) for `Mix`.  Effect-free side channels of the source
(`absl` logging and the lazy Keras `build` call, which only materialize
internal parameters and never touch the namespace) are not modelled.
-/

set_option autoImplicit false

namespace DDSP

/-- Error kinds raised by the embedded code, named after the spec's error
taxonomy where it has a name for them: `missingInput` is the KeyError
raised by `core.nested_lookup` on an unresolvable key path,
`invalidArgument` is the ValueError raised by `Mix.get_controls`,
`keyError`, `indexError` and `typeError` are the corresponding plain
Python exceptions, `notImplemented` is the NotImplementedError of the
abstract `Processor` methods, and `configurationError` is the spec's
structural-invalid-DAG error kind (raised nowhere by the code). -/
inductive Err where
  | missingInput
  | invalidArgument
  | keyError
  | indexError
  | typeError
  | notImplemented
  | configurationError
  deriving DecidableEq, Repr

/-- A value stored in the namespace dictionary: either a tensor of the
opaque tensor type `T`, or a nested dictionary. -/
inductive Value (T : Type) where
  | tensor (t : T)
  | dict (entries : List (String × Value T))

/-- The namespace threaded through the DAG: a Python dict from string
keys to tensors or nested dicts, embedded as an association list with
unique keys kept in insertion order. -/
abbrev Namespace (T : Type) : Type := List (String × Value T)

/-- First-match association-list lookup, embedding Python `d[k]`
(Python dicts hold each key at most once, so first match is the match). -/
def lookupKey {T : Type} : Namespace T → String → Option (Value T)
  | [], _ => none
  | (k', v) :: rest, k => if k' == k then some v else lookupKey rest k

/-- Embedding of Python `d[k] = v` on a dict: replace the value in place
if the key is present, otherwise append the new binding at the end
(Python dicts keep insertion order). -/
def setKey {T : Type} (ns : Namespace T) (k : String) (v : Value T) : Namespace T :=
  if ns.any (fun p => p.1 == k) then
    ns.map (fun p => if p.1 == k then (k, v) else p)
  else
    ns ++ [(k, v)]

/-- Splits a character list at each occurrence of the delimiter. -/
def splitAux (delim : Char) : List Char → List Char → List (List Char)
  | [], acc => [acc.reverse]
  | c :: cs, acc =>
    if c = delim then acc.reverse :: splitAux delim cs []
    else splitAux delim cs (c :: acc)

/-- Splits a key string on the `/` delimiter, e.g.
`"synth_additive/controls/f0_hz"` into its three segments and a
zero-depth key `"f0_hz"` into the single segment `["f0_hz"]`. -/
def splitPath (key : String) : List String :=
  (splitAux '/' key.toList []).map (fun cs => ⟨cs⟩)

/-- Resolves a list of path segments against a value by indexing one
nesting level per segment; any segment that is not a key of the dict at
its level, or that tries to index into a tensor, is a `missingInput`
failure. -/
def resolvePath {T : Type} : List String → Value T → Except Err (Value T)
  | [], v => .ok v
  | seg :: rest, .dict entries =>
    match lookupKey entries seg with
    | some v => resolvePath rest v
    | none => .error .missingInput
  | _ :: _, .tensor _ => .error .missingInput

/-- Modelled from the spec: `core.nested_lookup` (in `ddsp/core.py`,
which is not part of the excerpt) resolves a delimited key path into the
nested namespace, one nesting level per segment, and fails with the
spec's `MissingInput` error kind when a segment cannot be resolved
(missing intermediate level or missing terminal key). -/
def nestedLookup {T : Type} (key : String) (ns : Namespace T) : Except Err (Value T) :=
  resolvePath (splitPath key) (.dict ns)

/-- A processor: a name plus the two phases of the `Processor` contract.
`getControls` consumes the positional argument list of looked-up values
(`*inputs`), `getSignal` consumes the keyword-argument dict of control
tensors (`**controls`). -/
structure Processor (T : Type) where
  name : String
  getControls : List (Value T) → Except Err (List (String × T))
  getSignal : List (String × T) → Except Err T

/-- A DAG node: a processor together with the ordered list of input key
paths (`Node = Tuple[Processor, Sequence[Text]]`). -/
abbrev Node (T : Type) : Type := Processor T × List String

/-- `ProcessorGroup`: a name plus a DAG (ordered node list). -/
structure ProcessorGroup (T : Type) where
  name : String
  dag : List (Node T)

/-- The derived processor list `self.processors = [node[0] for node in
self.dag]` from `ProcessorGroup.__init__`. -/
def ProcessorGroup.processors {T : Type} (g : ProcessorGroup T) : List (Processor T) :=
  g.dag.map (fun node => node.1)

/-- The namespace entry recorded for a node:
`{'controls': controls, 'signal': signal}` with the controls dict nested
as a dict value. -/
def nodeRecord {T : Type} (controls : List (String × T)) (signal : T) : Value T :=
  .dict [("controls", .dict (controls.map (fun p => (p.1, Value.tensor p.2)))),
         ("signal", .tensor signal)]

/-- Embedding of the list comprehension
`inputs = [core.nested_lookup(key, outputs) for key in keys]`:
sequential lookups, failing with the first failing key's error. -/
def lookupAll {T : Type} : List String → Namespace T → Except Err (List (Value T))
  | [], _ => .ok []
  | k :: rest, outputs =>
    match nestedLookup k outputs with
    | .error e => .error e
    | .ok v =>
      match lookupAll rest outputs with
      | .error e => .error e
      | .ok vs => .ok (v :: vs)

/-- The `for node in self.dag` loop body of `ProcessorGroup.get_controls`:
resolve the node's keys against the namespace built so far, run
`get_controls` then `get_signal`, and record
`outputs[processor.name] = {'controls': controls, 'signal': signal}`.
Any raised exception propagates. -/
def runNodes {T : Type} : List (Node T) → Namespace T → Except Err (Namespace T)
  | [], outputs => .ok outputs
  | (p, keys) :: rest, outputs =>
    match lookupAll keys outputs with
    | .error e => .error e
    | .ok inputs =>
      match p.getControls inputs with
      | .error e => .error e
      | .ok controls =>
        match p.getSignal controls with
        | .error e => .error e
        | .ok signal => runNodes rest (setKey outputs p.name (nodeRecord controls signal))

/-- Embedding of `ProcessorGroup.get_controls`: initialize
`outputs = dag_inputs`, run the DAG loop, then
`output_name = self.processors[-1].name` (an IndexError on an empty
processor list) and
`outputs[self.name] = {'signal': outputs[output_name]['signal']}`. -/
def ProcessorGroup.getControls {T : Type} (g : ProcessorGroup T)
    (dag_inputs : Namespace T) : Except Err (Namespace T) :=
  match runNodes g.dag dag_inputs with
  | .error e => .error e
  | .ok outputs =>
    match g.processors.getLast? with
    | none => .error .indexError
    | some lastProc =>
      match lookupKey outputs lastProc.name with
      | none => .error .keyError
      | some (.tensor _) => .error .typeError
      | some (.dict entries) =>
        match lookupKey entries "signal" with
        | none => .error .keyError
        | some sig => .ok (setKey outputs g.name (.dict [("signal", sig)]))

/-- Embedding of `ProcessorGroup.get_signal`: the projection
`dag_outputs[self.name]['signal']`. -/
def ProcessorGroup.getSignal {T : Type} (g : ProcessorGroup T)
    (dag_outputs : Namespace T) : Except Err (Value T) :=
  match lookupKey dag_outputs g.name with
  | none => .error .keyError
  | some (.tensor _) => .error .typeError
  | some (.dict entries) =>
    match lookupKey entries "signal" with
    | none => .error .keyError
    | some sig => .ok sig

/-- Embedding of `ProcessorGroup.call`: `get_controls` then
`get_signal`. -/
def ProcessorGroup.call {T : Type} (g : ProcessorGroup T)
    (dag_inputs : Namespace T) : Except Err (Value T) :=
  match g.getControls dag_inputs with
  | .error e => .error e
  | .ok dag_outputs => g.getSignal dag_outputs

/-- First-match lookup in a flat controls dict (keyword-argument
binding for `get_signal(**controls)`). -/
def lookupCtrl {T : Type} : List (String × T) → String → Option T
  | [], _ => none
  | (k', v) :: rest, k => if k' == k then some v else lookupCtrl rest k

/-- Embedding of the routing processor `Add` at the concrete tensor type
`List ℤ`: `get_controls` passes both signals through unchanged,
`get_signal` returns the elementwise sum.  Calling it with arguments
that are not two tensors is a Python-level TypeError. -/
def addProcessor : Processor (List ℤ) where
  name := "add"
  getControls := fun args =>
    match args with
    | [.tensor signal_one, .tensor signal_two] =>
      .ok [("signal_one", signal_one), ("signal_two", signal_two)]
    | _ => .error .typeError
  getSignal := fun controls =>
    match lookupCtrl controls "signal_one", lookupCtrl controls "signal_two" with
    | some signal_one, some signal_two => .ok (List.zipWith (· + ·) signal_one signal_two)
    | _, _ => .error .typeError

/-! ### Spec-side description of the DAG traversal

A second definition of `get_controls`, written from the spec's numbered
algorithm (resolve keys, compute controls, compute signal, record the
node entry, and after the loop alias the group's own entry to the signal
of the last node in DAG order).  It is structured around the spec's
words — the last node's signal is carried out of the loop directly
instead of being re-read from the namespace — and is compared with the
source-derived `ProcessorGroup.getControls` in the refinement theorem
for C1. -/

/-- Spec-side loop: runs the nodes in declared order and returns the
final namespace together with the signal of the last node processed
(`none` when there was no node). -/
def specRunNodes {T : Type} : List (Node T) → Namespace T → Except Err (Namespace T × Option T)
  | [], ns => .ok (ns, none)
  | (p, keys) :: rest, ns =>
    match lookupAll keys ns with
    | .error e => .error e
    | .ok resolved =>
      match p.getControls resolved with
      | .error e => .error e
      | .ok controls =>
        match p.getSignal controls with
        | .error e => .error e
        | .ok signal =>
          match specRunNodes rest (setKey ns p.name (nodeRecord controls signal)) with
          | .error e => .error e
          | .ok (nsF, lastSig) => .ok (nsF, some (lastSig.getD signal))

/-- Spec-side `get_controls`: run the loop, then record
`outputs[group.name] = {signal: <signal of last node in DAG order>}`;
an empty DAG has no last node and is the spec's `ConfigurationError`. -/
def specGetControls {T : Type} (g : ProcessorGroup T)
    (ns : Namespace T) : Except Err (Namespace T) :=
  match specRunNodes g.dag ns with
  | .error e => .error e
  | .ok (_, none) => .error .configurationError
  | .ok (nsF, some sig) => .ok (setKey nsF g.name (.dict [("signal", .tensor sig)]))

/-! ### Heap model of the in-place mutation

Python dicts are heap objects passed by reference: `outputs = dag_inputs`
aliases the caller's dict and every `outputs[k] = v` mutates it in
place.  To state that frame effect (claim C9), the same traversal is
re-run against an explicit heap: a list of dict objects, with a dict
reference being an index into it.  Each write of the source becomes a
`List.set` at the referenced cell. -/

/-- The DAG loop acting through a dict reference `r` into the heap:
every read of `outputs` dereferences `r` and every write updates the
heap cell at `r` in place. -/
def runNodesHeap {T : Type} : List (Node T) → ℕ → List (Namespace T) →
    Except Err (List (Namespace T))
  | [], _, heap => .ok heap
  | (p, keys) :: rest, r, heap =>
    let outputs := heap.getD r []
    match lookupAll keys outputs with
    | .error e => .error e
    | .ok inputs =>
      match p.getControls inputs with
      | .error e => .error e
      | .ok controls =>
        match p.getSignal controls with
        | .error e => .error e
        | .ok signal =>
          runNodesHeap rest r (heap.set r (setKey outputs p.name (nodeRecord controls signal)))

/-- `ProcessorGroup.get_controls` acting on a dict reference: runs the
loop through the reference, records the group's aliased entry through
the same reference, and returns the reference itself (Python returns
`outputs`, which is the very object `dag_inputs` named). -/
def getControlsHeap {T : Type} (g : ProcessorGroup T) (r : ℕ)
    (heap : List (Namespace T)) : Except Err (ℕ × List (Namespace T)) :=
  match runNodesHeap g.dag r heap with
  | .error e => .error e
  | .ok heapLoop =>
    let outputs := heapLoop.getD r []
    match g.processors.getLast? with
    | none => .error .indexError
    | some lastProc =>
      match lookupKey outputs lastProc.name with
      | none => .error .keyError
      | some (.tensor _) => .error .typeError
      | some (.dict entries) =>
        match lookupKey entries "signal" with
        | none => .error .keyError
        | some sig =>
          .ok (r, heapLoop.set r (setKey outputs g.name (.dict [("signal", sig)])))

/-! ### The `Mix` routing processor

`Mix` works elementwise on rank-2 tensors `[batch, time]`, embedded as
`List (List ℝ)` (one inner list per batch row).  TensorFlow's `tf.sqrt`
returns NaN on a negative argument; that domain escape is embedded as
`Option`-valued square root, so a NaN anywhere in a computation shows up
as `none`. -/

/-- A rank-2 real tensor `[batch, time]` as a list of rows. -/
abbrev Sig2 : Type := List (List ℝ)

/-- The shape of a rank-2 tensor: the list of its row lengths. -/
def shape2 (s : Sig2) : List ℕ := s.map List.length

/-- `int(signal.shape[1])`: the length of the time axis (axis index 1),
read off the first row of the rectangular tensor. -/
def nTime (s : Sig2) : ℕ := (s.headD []).length

/-- Elementwise combination of two equally shaped rank-2 tensors. -/
def map2 (f : ℝ → ℝ → ℝ) (a b : Sig2) : Sig2 :=
  List.zipWith (List.zipWith f) a b

/-- A `[b, t]` tensor holding the value `x` at every timestep. -/
def uniform2 (b t : ℕ) (x : ℝ) : Sig2 :=
  List.replicate b (List.replicate t x)

/-- The all-zero tensor of the same shape as `s`. -/
def zeroLike (s : Sig2) : Sig2 := s.map (List.map (fun _ => (0 : ℝ)))

/-- `tf.nn.sigmoid`, the logistic squashing function. -/
noncomputable def sigmoid (x : ℝ) : ℝ := 1 / (1 + Real.exp (-x))

/-- Elementwise sigmoid of a rank-2 tensor. -/
noncomputable def sigmoidAll (s : Sig2) : Sig2 := s.map (List.map sigmoid)

/-- Modelled from the spec: `core.resample` (in `ddsp/core.py`, which is
not part of the excerpt) stretches a tensor along its time axis to a
target length; embedded as nearest-neighbour index stretching, which has
the one property the spec relies on (it is a total function to the
target length). -/
def resample (x : Sig2) (n : ℕ) : Sig2 :=
  x.map (fun row => (List.range n).map (fun i => row.getD (i * row.length / n) 0))

/-- The controls dict returned by `Mix.get_controls`. -/
structure MixControls where
  signal_one : Sig2
  signal_two : Sig2
  mix_level : Sig2

/-- Embedding of `Mix.get_controls`: compare the time lengths of the two
signals (`ValueError`, the spec's `InvalidArgument`, when they differ),
then squash the raw network output through a sigmoid and resample it to
the common time length. -/
noncomputable def mixGetControls (signal_one signal_two nn_out_mix_level : Sig2) :
    Except Err MixControls :=
  let n_time_one := nTime signal_one
  let n_time_two := nTime signal_two
  if n_time_one ≠ n_time_two then .error .invalidArgument
  else
    let mix_level := resample (sigmoidAll nn_out_mix_level) n_time_one
    .ok ⟨signal_one, signal_two, mix_level⟩

/-- `tf.sqrt` with its domain escape made explicit: NaN (embedded as
`none`) on a negative argument, the real square root otherwise. -/
noncomputable def tfSqrt (x : ℝ) : Option ℝ :=
  if x < 0 then none else some (Real.sqrt x)

/-- Applies a partial elementwise function across a row, failing if any
element fails. -/
def mapRowOpt (f : ℝ → Option ℝ) : List ℝ → Option (List ℝ)
  | [] => some []
  | x :: rest =>
    match f x with
    | none => none
    | some y =>
      match mapRowOpt f rest with
      | none => none
      | some ys => some (y :: ys)

/-- Applies a partial elementwise function across a rank-2 tensor. -/
def mapRowsOpt (f : ℝ → Option ℝ) : Sig2 → Option Sig2
  | [] => some []
  | row :: rest =>
    match mapRowOpt f row with
    | none => none
    | some r =>
      match mapRowsOpt f rest with
      | none => none
      | some rs => some (r :: rs)

/-- Embedding of `Mix.get_signal`:
`mix_level_one = tf.sqrt(tf.abs(mix_level))`,
`mix_level_two = 1.0 - tf.sqrt(tf.abs(mix_level - 1.0))`, output
`mix_level_one * signal_one + mix_level_two * signal_two` elementwise. -/
noncomputable def mixGetSignal (signal_one signal_two mix_level : Sig2) : Option Sig2 :=
  match mapRowsOpt (fun x => tfSqrt |x|) mix_level with
  | none => none
  | some mix_level_one =>
    match mapRowsOpt (fun x => tfSqrt |x - 1|) mix_level with
    | none => none
    | some sq =>
      let mix_level_two := sq.map (List.map (fun y => 1 - y))
      some (map2 (· + ·) (map2 (· * ·) mix_level_one signal_one)
                         (map2 (· * ·) mix_level_two signal_two))

/-- The closed elementwise form of `Mix.get_signal`:
`sqrt |m| * s1 + (1 - sqrt |m - 1|) * s2`. -/
noncomputable def mixFormula (signal_one signal_two mix_level : Sig2) : Sig2 :=
  map2 (· + ·)
    (map2 (· * ·) (mix_level.map (List.map (fun x => Real.sqrt |x|))) signal_one)
    (map2 (· * ·) (mix_level.map (List.map (fun x => 1 - Real.sqrt |x - 1|))) signal_two)

/-! ### Dictionary lemmas -/

/-- The top-level keys of a namespace, in insertion order. -/
def keysOf {T : Type} (ns : Namespace T) : List String := ns.map Prod.fst

lemma any_key_iff {T : Type} (ns : Namespace T) (k : String) :
    (ns.any (fun p => p.1 == k) = true) ↔ k ∈ keysOf ns := by
  simp [keysOf, List.any_eq_true, List.mem_map, beq_iff_eq]

lemma keysOf_map_replace {T : Type} (ns : Namespace T) (k : String) (v : Value T) :
    keysOf (ns.map (fun p => if p.1 == k then (k, v) else p)) = keysOf ns := by
  simp only [keysOf, List.map_map]
  apply List.map_congr_left
  intro p _
  by_cases h : p.1 = k
  · simp [h]
  · simp [h]

lemma keysOf_setKey_of_mem {T : Type} {ns : Namespace T} {k : String} (v : Value T)
    (h : k ∈ keysOf ns) : keysOf (setKey ns k v) = keysOf ns := by
  rw [setKey, if_pos ((any_key_iff ns k).mpr h)]
  exact keysOf_map_replace ns k v

lemma keysOf_setKey_of_not_mem {T : Type} {ns : Namespace T} {k : String} (v : Value T)
    (h : k ∉ keysOf ns) : keysOf (setKey ns k v) = keysOf ns ++ [k] := by
  rw [setKey, if_neg (fun hc => h ((any_key_iff ns k).mp hc))]
  simp [keysOf]

lemma mem_keysOf_setKey {T : Type} {ns : Namespace T} {k' k : String} (v : Value T)
    (h : k' ∈ keysOf ns) : k' ∈ keysOf (setKey ns k v) := by
  by_cases hk : k ∈ keysOf ns
  · rw [keysOf_setKey_of_mem v hk]; exact h
  · rw [keysOf_setKey_of_not_mem v hk]; exact List.mem_append_left _ h

lemma lookupKey_append_left {T : Type} {ns : Namespace T} (ns' : Namespace T) {k : String}
    (h : k ∉ keysOf ns) : lookupKey (ns ++ ns') k = lookupKey ns' k := by
  induction ns with
  | nil => rfl
  | cons p rest ih =>
    have hne : ¬(p.1 == k) = true := by
      simp only [beq_iff_eq]
      intro he
      exact h (by simp [keysOf, he])
    obtain ⟨k', v'⟩ := p
    simp only [List.cons_append, lookupKey]
    rw [if_neg hne]
    exact ih (fun hm => h (by simp only [keysOf, List.map] at hm ⊢; exact List.mem_cons_of_mem _ hm))

lemma lookupKey_map_replace_of_any {T : Type} (k : String) (v : Value T) :
    ∀ ns : Namespace T, ns.any (fun p => p.1 == k) = true →
      lookupKey (ns.map (fun p => if p.1 == k then (k, v) else p)) k = some v := by
  intro ns
  induction ns with
  | nil => intro h; simp at h
  | cons p rest ih =>
    intro hany
    obtain ⟨k', v'⟩ := p
    by_cases h : k' = k
    · subst h
      simp only [List.map_cons]
      rw [if_pos (by simp : ((k', v').1 == k') = true)]
      simp only [lookupKey]
      rw [if_pos (by simp : (k' == k') = true)]
    · have hb : (k' == k) = false := beq_eq_false_iff_ne.mpr h
      simp only [List.map_cons]
      rw [if_neg (by simp [hb])]
      simp only [lookupKey]
      rw [if_neg (by simp [hb])]
      apply ih
      simpa [List.any_cons, hb] using hany

lemma lookupKey_setKey_self {T : Type} (ns : Namespace T) (k : String) (v : Value T) :
    lookupKey (setKey ns k v) k = some v := by
  rw [setKey]
  split
  · rename_i hany
    exact lookupKey_map_replace_of_any k v ns hany
  · rename_i hany
    rw [lookupKey_append_left _ (fun hm => hany ((any_key_iff ns k).mpr hm))]
    simp [lookupKey]

/-! ### C2: `call` composes `get_controls` and `get_signal` -/

/-- C2: for every ProcessorGroup and every input namespace on which
`get_controls` succeeds, invoking the group directly (`call`) returns
exactly the same tensor as calling `get_controls` followed by
`get_signal` on its result. -/
theorem call_eq_getSignal_of_getControls {T : Type} (g : ProcessorGroup T)
    (ns out : Namespace T) (h : g.getControls ns = .ok out) :
    g.call ns = g.getSignal out := by
  simp [ProcessorGroup.call, h]

/-- A one-node `Add` group, `DAG = [(Add, ["x", "y"])]`. -/
def addGroup : ProcessorGroup (List ℤ) :=
  ⟨"processor_group", [(addProcessor, ["x", "y"])]⟩

/-- The inputs `{"x": [1, 2, 3], "y": [4, 5, 6]}`. -/
def addInputs : Namespace (List ℤ) :=
  [("x", .tensor [1, 2, 3]), ("y", .tensor [4, 5, 6])]

/-- The full output namespace of `addGroup.getControls addInputs`. -/
def addOutputs : Namespace (List ℤ) :=
  [("x", .tensor [1, 2, 3]), ("y", .tensor [4, 5, 6]),
   ("add", .dict [("controls", .dict [("signal_one", .tensor [1, 2, 3]),
                                      ("signal_two", .tensor [4, 5, 6])]),
                  ("signal", .tensor [5, 7, 9])]),
   ("processor_group", .dict [("signal", .tensor [5, 7, 9])])]

/-- Witness for C2: on the one-node `Add` group with inputs
`{"x": [1,2,3], "y": [4,5,6]}`, `get_controls` succeeds, `call` agrees
with `get_signal ∘ get_controls`, and the returned tensor is
`[5, 7, 9]`. -/
theorem call_eq_getSignal_of_getControls_witness :
    addGroup.getControls addInputs = .ok addOutputs ∧
    addGroup.call addInputs = addGroup.getSignal addOutputs ∧
    addGroup.call addInputs = .ok (.tensor [5, 7, 9]) :=
  ⟨rfl, call_eq_getSignal_of_getControls addGroup addInputs addOutputs rfl, rfl⟩

/-! ### C1: the traversal matches the spec's algorithm -/

lemma specRunNodes_error_iff {T : Type} :
    ∀ (dag : List (Node T)) (ns : Namespace T) (e : Err),
      specRunNodes dag ns = .error e ↔ runNodes dag ns = .error e := by
  intro dag
  induction dag with
  | nil => intro ns e; simp [specRunNodes, runNodes]
  | cons node rest ih =>
    intro ns e
    obtain ⟨p, keys⟩ := node
    simp only [specRunNodes, runNodes]
    cases h1 : lookupAll keys ns with
    | error e0 => simp [h1]
    | ok inputs =>
      simp only [h1]
      cases h2 : p.getControls inputs with
      | error e0 => simp [h2]
      | ok controls =>
        simp only [h2]
        cases h3 : p.getSignal controls with
        | error e0 => simp [h3]
        | ok signal =>
          simp only [h3]
          cases hs : specRunNodes rest (setKey ns p.name (nodeRecord controls signal)) with
          | error e0 =>
            simp only [hs]
            constructor
            · intro he
              cases he
              exact (ih _ e).mp hs
            · intro hr
              have hse := (ih _ e).mpr hr
              rw [hs] at hse
              exact hse
          | ok pr =>
            obtain ⟨nsF, ls⟩ := pr
            simp only [hs]
            constructor
            · intro he; exact absurd he (by simp)
            · intro hr
              have hse := (ih _ e).mpr hr
              rw [hs] at hse
              exact absurd hse (by simp)

lemma specRunNodes_cons {T : Type} (p : Processor T) (keys : List String)
    (rest : List (Node T)) (ns : Namespace T) :
    specRunNodes ((p, keys) :: rest) ns =
      match lookupAll keys ns with
      | .error e => .error e
      | .ok resolved =>
        match p.getControls resolved with
        | .error e => .error e
        | .ok controls =>
          match p.getSignal controls with
          | .error e => .error e
          | .ok signal =>
            match specRunNodes rest (setKey ns p.name (nodeRecord controls signal)) with
            | .error e => .error e
            | .ok (nsF, lastSig) => .ok (nsF, some (lastSig.getD signal)) := rfl

lemma runNodes_ok_spec {T : Type} :
    ∀ (dag : List (Node T)) (ns nsF : Namespace T),
      runNodes dag ns = .ok nsF →
      (dag = [] → specRunNodes dag ns = .ok (nsF, none)) ∧
      (∀ p keys, dag.getLast? = some (p, keys) →
        ∃ sig entries, specRunNodes dag ns = .ok (nsF, some sig) ∧
          lookupKey nsF p.name = some (.dict entries) ∧
          lookupKey entries "signal" = some (.tensor sig)) := by
  intro dag
  induction dag with
  | nil =>
    intro ns nsF hrun
    have hns : ns = nsF := by simpa [runNodes] using hrun
    subst hns
    exact ⟨fun _ => rfl, fun p keys h => by simp at h⟩
  | cons node rest ih =>
    intro ns nsF hrun
    obtain ⟨p0, keys0⟩ := node
    simp only [runNodes] at hrun
    cases h1 : lookupAll keys0 ns with
    | error e0 => simp [h1] at hrun
    | ok inputs =>
      simp only [h1] at hrun
      cases h2 : p0.getControls inputs with
      | error e0 => simp [h2] at hrun
      | ok controls =>
        simp only [h2] at hrun
        cases h3 : p0.getSignal controls with
        | error e0 => simp [h3] at hrun
        | ok signal =>
          simp only [h3] at hrun
          obtain ⟨ihNil, ihLast⟩ := ih _ _ hrun
          refine ⟨fun hc => by simp at hc, ?_⟩
          intro p keys hlast
          cases rest with
          | nil =>
            have hp : p0 = p ∧ keys0 = keys := by
              simp only [List.getLast?] at hlast
              exact ⟨congrArg Prod.fst (Option.some.inj hlast),
                     congrArg Prod.snd (Option.some.inj hlast)⟩
            obtain ⟨hpe, _⟩ := hp
            have hspec := ihNil rfl
            have hnsF : setKey ns p0.name (nodeRecord controls signal) = nsF := by
              simpa [specRunNodes] using hspec
            refine ⟨signal,
              ("controls", .dict (controls.map (fun q => (q.1, Value.tensor q.2)))) ::
                [("signal", .tensor signal)], ?_, ?_, rfl⟩
            · simp only [specRunNodes, h1, h2, h3, Option.getD_none]
              rw [hnsF]
            · rw [← hnsF, ← hpe]
              exact lookupKey_setKey_self ns p0.name (nodeRecord controls signal)
          | cons r rs =>
            have hlast' : (r :: rs).getLast? = some (p, keys) := by
              rwa [List.getLast?_cons_cons] at hlast
            obtain ⟨sig, entries, hspec, hl1, hl2⟩ := ihLast p keys hlast'
            refine ⟨sig, entries, ?_, hl1, hl2⟩
            rw [specRunNodes_cons]
            simp only [h1, h2, h3, hspec, Option.getD_some]

/-- C1: for every ProcessorGroup with a non-empty DAG, `get_controls`
computes exactly what the spec's algorithm prescribes: it processes the
nodes in declared order recording
`outputs[processor.name] = {controls, signal}` for each, then records
`outputs[group.name] = {signal: <signal of last node in DAG order>}`
and returns the namespace (and it propagates exactly the failures the
spec-side algorithm fails with). -/
theorem getControls_eq_specGetControls {T : Type} (g : ProcessorGroup T)
    (ns : Namespace T) (hne : g.dag ≠ []) :
    g.getControls ns = specGetControls g ns := by
  unfold ProcessorGroup.getControls specGetControls
  cases hrun : runNodes g.dag ns with
  | error e =>
    have hse := (specRunNodes_error_iff g.dag ns e).mpr hrun
    simp only [hrun, hse]
  | ok nsF =>
    obtain ⟨node, hlast⟩ : ∃ node, g.dag.getLast? = some node := by
      cases hl : g.dag.getLast? with
      | none => exact absurd (List.getLast?_eq_none_iff.mp hl) hne
      | some node => exact ⟨node, rfl⟩
    obtain ⟨p, keys⟩ := node
    obtain ⟨_, ihLast⟩ := runNodes_ok_spec g.dag ns nsF hrun
    obtain ⟨sig, entries, hspec, hl1, hl2⟩ := ihLast p keys hlast
    have hproc : g.processors.getLast? = some p := by
      unfold ProcessorGroup.processors
      rw [List.getLast?_map, hlast]
      rfl
    simp only [hrun, hspec, hproc, hl1, hl2]

/-- Witness for C1: on the concrete one-node `Add` group,
`get_controls` and the spec-side algorithm agree (and produce the
expected namespace). -/
theorem getControls_eq_specGetControls_witness :
    addGroup.getControls addInputs = specGetControls addGroup addInputs ∧
    specGetControls addGroup addInputs = .ok addOutputs :=
  ⟨getControls_eq_specGetControls addGroup addInputs (by simp [addGroup]), rfl⟩

/-! ### C3: the namespace grows by exactly n + 1 fresh top-level keys -/

lemma keysOf_runNodes {T : Type} :
    ∀ (dag : List (Node T)) (ns nsF : Namespace T),
      runNodes dag ns = .ok nsF →
      (dag.map (fun n => n.1.name)).Nodup →
      (∀ n ∈ dag.map (fun n => n.1.name), n ∉ keysOf ns) →
      keysOf nsF = keysOf ns ++ dag.map (fun n => n.1.name) := by
  intro dag
  induction dag with
  | nil =>
    intro ns nsF hrun _ _
    have hns : ns = nsF := by simpa [runNodes] using hrun
    subst hns
    simp
  | cons node rest ih =>
    intro ns nsF hrun hnodup hfresh
    obtain ⟨p0, keys0⟩ := node
    simp only [runNodes] at hrun
    cases h1 : lookupAll keys0 ns with
    | error e0 => simp [h1] at hrun
    | ok inputs =>
      simp only [h1] at hrun
      cases h2 : p0.getControls inputs with
      | error e0 => simp [h2] at hrun
      | ok controls =>
        simp only [h2] at hrun
        cases h3 : p0.getSignal controls with
        | error e0 => simp [h3] at hrun
        | ok signal =>
          simp only [h3] at hrun
          have hhead : p0.name ∉ keysOf ns := hfresh p0.name (by simp)
          have hkeys' : keysOf (setKey ns p0.name (nodeRecord controls signal)) =
              keysOf ns ++ [p0.name] :=
            keysOf_setKey_of_not_mem _ hhead
          simp only [List.map_cons, List.nodup_cons] at hnodup
          have hfresh' : ∀ n ∈ rest.map (fun n => n.1.name),
              n ∉ keysOf (setKey ns p0.name (nodeRecord controls signal)) := by
            intro n hn
            rw [hkeys']
            intro hmem
            rcases List.mem_append.mp hmem with hin | hin
            · exact hfresh n (by simp only [List.map_cons]; exact List.mem_cons_of_mem _ hn) hin
            · rw [List.mem_singleton] at hin
              exact hnodup.1 (hin ▸ hn)
          have := ih _ _ hrun hnodup.2 hfresh'
          rw [this, hkeys']
          simp

/-- C3: for every DAG of length `n` whose processor names are pairwise
distinct and distinct from the group name and from the input
namespace's top-level keys, a successful `get_controls` adds exactly the
`n` processor-name keys plus the group's aliased key (so `n + 1` new
top-level keys), and every key present at the start is still present in
the returned namespace. -/
theorem getControls_adds_n_plus_one_keys {T : Type} (g : ProcessorGroup T)
    (ns out : Namespace T)
    (hnodup : (g.dag.map (fun n => n.1.name)).Nodup)
    (hfresh : ∀ n ∈ g.dag.map (fun n => n.1.name), n ∉ keysOf ns)
    (hg1 : g.name ∉ keysOf ns)
    (hg2 : g.name ∉ g.dag.map (fun n => n.1.name))
    (hok : g.getControls ns = .ok out) :
    keysOf out = keysOf ns ++ g.dag.map (fun n => n.1.name) ++ [g.name] ∧
    (keysOf out).length = (keysOf ns).length + (g.dag.length + 1) ∧
    ∀ k ∈ keysOf ns, k ∈ keysOf out := by
  unfold ProcessorGroup.getControls at hok
  cases hrun : runNodes g.dag ns with
  | error e => simp [hrun] at hok
  | ok nsF =>
    simp only [hrun] at hok
    cases hlastp : g.processors.getLast? with
    | none => simp [hlastp] at hok
    | some lastP =>
      simp only [hlastp] at hok
      cases hlk : lookupKey nsF lastP.name with
      | none => simp [hlk] at hok
      | some v =>
        simp only [hlk] at hok
        cases v with
        | tensor t => simp at hok
        | dict entries =>
          cases hsig : lookupKey entries "signal" with
          | none => simp [hsig] at hok
          | some sig =>
            simp only [hsig] at hok
            have hout : setKey nsF g.name (.dict [("signal", sig)]) = out := by
              simpa using hok
            have hkeysF : keysOf nsF = keysOf ns ++ g.dag.map (fun n => n.1.name) :=
              keysOf_runNodes g.dag ns nsF hrun hnodup hfresh
            have hgF : g.name ∉ keysOf nsF := by
              rw [hkeysF]
              intro hmem
              rcases List.mem_append.mp hmem with hin | hin
              · exact hg1 hin
              · exact hg2 hin
            have hkeysOut : keysOf out = keysOf ns ++ g.dag.map (fun n => n.1.name) ++ [g.name] := by
              rw [← hout, keysOf_setKey_of_not_mem _ hgF, hkeysF]
            refine ⟨hkeysOut, ?_, ?_⟩
            · rw [hkeysOut]
              simp [List.length_append, Nat.add_assoc]
            · intro k hk
              rw [hkeysOut]
              exact List.mem_append_left _ (List.mem_append_left _ hk)

/-- Witness for C3: the one-node `Add` group adds exactly the two keys
`"add"` and `"processor_group"` (n + 1 = 2) to the two input keys. -/
theorem getControls_adds_n_plus_one_keys_witness :
    keysOf addOutputs = keysOf addInputs ++ addGroup.dag.map (fun n => n.1.name) ++
      [addGroup.name] ∧
    (keysOf addOutputs).length = (keysOf addInputs).length + (addGroup.dag.length + 1) ∧
    ∀ k ∈ keysOf addInputs, k ∈ keysOf addOutputs :=
  getControls_adds_n_plus_one_keys addGroup addInputs addOutputs
    (by decide) (by decide) (by decide) (by decide) rfl

/-! ### C4: an unresolvable key fails the whole run with `MissingInput` -/

lemma resolvePath_error_missingInput {T : Type} :
    ∀ (path : List String) (v : Value T) (e : Err),
      resolvePath path v = .error e → e = .missingInput := by
  intro path
  induction path with
  | nil => intro v e h; simp [resolvePath] at h
  | cons seg rest ih =>
    intro v e h
    cases v with
    | tensor t => simpa [resolvePath] using h.symm
    | dict entries =>
      simp only [resolvePath] at h
      cases hl : lookupKey entries seg with
      | none => simp only [hl] at h; exact (Except.error.inj h).symm
      | some v' => simp only [hl] at h; exact ih v' e h

lemma nestedLookup_error_missingInput {T : Type} {k : String} {ns : Namespace T} {e : Err}
    (h : nestedLookup k ns = .error e) : e = .missingInput :=
  resolvePath_error_missingInput (splitPath k) (.dict ns) e h

lemma lookupAll_error_of_fail {T : Type} :
    ∀ (keys : List String) (ns : Namespace T),
      (∃ k ∈ keys, ∀ v, nestedLookup k ns ≠ .ok v) →
      lookupAll keys ns = .error .missingInput := by
  intro keys
  induction keys with
  | nil => intro ns h; simp at h
  | cons k0 rest ih =>
    intro ns h
    cases hl : nestedLookup k0 ns with
    | error e =>
      have he := nestedLookup_error_missingInput hl
      subst he
      simp only [lookupAll, hl]
    | ok v =>
      obtain ⟨k, hk, hfail⟩ := h
      rcases List.mem_cons.mp hk with hk0 | hkrest
      · exact absurd hl (hk0 ▸ hfail v)
      · have hrest := ih ns ⟨k, hkrest, hfail⟩
        simp only [lookupAll, hl, hrest]

lemma runNodes_cons {T : Type} (p : Processor T) (keys : List String)
    (rest : List (Node T)) (ns : Namespace T) :
    runNodes ((p, keys) :: rest) ns =
      match lookupAll keys ns with
      | .error e => .error e
      | .ok inputs =>
        match p.getControls inputs with
        | .error e => .error e
        | .ok controls =>
          match p.getSignal controls with
          | .error e => .error e
          | .ok signal => runNodes rest (setKey ns p.name (nodeRecord controls signal)) := rfl

lemma runNodes_append {T : Type} :
    ∀ (xs ys : List (Node T)) (ns : Namespace T),
      runNodes (xs ++ ys) ns =
        match runNodes xs ns with
        | .error e => .error e
        | .ok s => runNodes ys s := by
  intro xs
  induction xs with
  | nil => intro ys ns; rfl
  | cons node rest ih =>
    intro ys ns
    obtain ⟨p, keys⟩ := node
    rw [List.cons_append, runNodes_cons, runNodes_cons]
    cases h1 : lookupAll keys ns with
    | error e0 => simp
    | ok inputs =>
      simp only []
      cases h2 : p.getControls inputs with
      | error e0 => simp
      | ok controls =>
        simp only []
        cases h3 : p.getSignal controls with
        | error e0 => simp
        | ok signal =>
          simp only []
          exact ih ys (setKey ns p.name (nodeRecord controls signal))

/-- C4: if, at some node of the DAG, a key path cannot be resolved in
the namespace built by the nodes before it, then `get_controls` fails
with the `MissingInput` error (it propagates the failure and never
substitutes a default value). -/
theorem getControls_missingInput {T : Type} (g : ProcessorGroup T) (ns : Namespace T)
    (pre : List (Node T)) (node : Node T) (rest : List (Node T)) (s : Namespace T)
    (hdag : g.dag = pre ++ node :: rest)
    (hpre : runNodes pre ns = .ok s)
    (hfail : ∃ k ∈ node.2, ∀ v, nestedLookup k s ≠ .ok v) :
    g.getControls ns = .error .missingInput := by
  obtain ⟨p, keys⟩ := node
  have hall : lookupAll keys s = .error .missingInput :=
    lookupAll_error_of_fail keys s hfail
  have hnode : runNodes ((p, keys) :: rest) s = .error .missingInput := by
    rw [runNodes_cons]
    simp only [hall]
  have hrun : runNodes g.dag ns = .error .missingInput := by
    rw [hdag, runNodes_append]
    simp only [hpre, hnode]
  unfold ProcessorGroup.getControls
  simp only [hrun]

/-- A one-node group whose node references the key path
`"reverb/signal"`, which does not resolve in `addInputs` (out-of-order
DAG / missing producer). -/
def badGroup : ProcessorGroup (List ℤ) :=
  ⟨"processor_group", [(addProcessor, ["reverb/signal", "y"])]⟩

/-- Witness for C4: the group whose first node references the
unresolvable path `"reverb/signal"` fails with `MissingInput`. -/
theorem getControls_missingInput_witness :
    badGroup.getControls addInputs = .error .missingInput :=
  getControls_missingInput badGroup addInputs [] (addProcessor, ["reverb/signal", "y"]) []
    addInputs rfl rfl
    ⟨"reverb/signal", by simp, fun v hv => by
      rw [show nestedLookup "reverb/signal" addInputs = .error .missingInput from rfl] at hv
      exact Except.noConfusion hv⟩

/-! ### C8: the empty DAG -/

/-- A ProcessorGroup constructed from an empty DAG (construction itself
performs no validation and succeeds). -/
def emptyGroup : ProcessorGroup (List ℤ) := ⟨"processor_group", []⟩

/-- Counterexample for C8: invoking the empty-DAG group fails with the
IndexError of `self.processors[-1]`, which is not the spec's
`ConfigurationError`; no `ConfigurationError` is raised at construction
or invocation. -/
theorem emptyGroup_fails_with_indexError_not_configurationError :
    emptyGroup.getControls [] = .error .indexError ∧
    Err.indexError ≠ Err.configurationError :=
  ⟨rfl, by decide⟩

/-- C8 (amended): constructing a ProcessorGroup from an empty DAG
succeeds (the constructor validates nothing), and the first invocation
never produces a result: both `get_controls` and `call` fail, with the
IndexError raised by taking `self.processors[-1]` of an empty list
rather than a dedicated `ConfigurationError`. -/
theorem emptyDag_fails_with_indexError {T : Type} (g : ProcessorGroup T)
    (ns : Namespace T) (h : g.dag = []) :
    g.getControls ns = .error .indexError ∧ g.call ns = .error .indexError := by
  have hproc : g.processors.getLast? = none := by
    unfold ProcessorGroup.processors
    rw [h]
    rfl
  have hrun : runNodes g.dag ns = .ok ns := by rw [h]; rfl
  have hgc : g.getControls ns = .error .indexError := by
    unfold ProcessorGroup.getControls
    simp only [hrun, hproc]
  refine ⟨hgc, ?_⟩
  unfold ProcessorGroup.call
  simp only [hgc]

/-- Witness for C8 (amended): the concrete empty-DAG group fails with
an IndexError on both entry points. -/
theorem emptyDag_fails_with_indexError_witness :
    emptyGroup.getControls addInputs = .error .indexError ∧
    emptyGroup.call addInputs = .error .indexError :=
  emptyDag_fails_with_indexError emptyGroup addInputs rfl

/-! ### C9: `get_controls` mutates the caller's dict in place -/

lemma getD_set_self {α : Type} (l : List α) (i : ℕ) (x d : α) (h : i < l.length) :
    (l.set i x).getD i d = x := by
  rw [List.getD_eq_getElem _ d (by simpa using h)]
  exact List.getElem_set_self (by simpa using h)

lemma set_getD_self {α : Type} :
    ∀ (l : List α) (i : ℕ) (d : α), i < l.length → l.set i (l.getD i d) = l := by
  intro l
  induction l with
  | nil => intro i d h; simp at h
  | cons a rest ih =>
    intro i d h
    cases i with
    | zero => simp
    | succ n =>
      simp only [List.getD_cons_succ, List.set_cons_succ]
      rw [ih n d (by simpa using h)]

lemma runNodesHeap_cons {T : Type} (p : Processor T) (keys : List String)
    (rest : List (Node T)) (r : ℕ) (heap : List (Namespace T)) :
    runNodesHeap ((p, keys) :: rest) r heap =
      match lookupAll keys (heap.getD r []) with
      | .error e => .error e
      | .ok inputs =>
        match p.getControls inputs with
        | .error e => .error e
        | .ok controls =>
          match p.getSignal controls with
          | .error e => .error e
          | .ok signal =>
            runNodesHeap rest r
              (heap.set r (setKey (heap.getD r []) p.name (nodeRecord controls signal))) := rfl

lemma runNodesHeap_spec {T : Type} :
    ∀ (dag : List (Node T)) (r : ℕ) (heap : List (Namespace T)), r < heap.length →
      runNodesHeap dag r heap =
        match runNodes dag (heap.getD r []) with
        | .error e => .error e
        | .ok out => .ok (heap.set r out) := by
  intro dag
  induction dag with
  | nil =>
    intro r heap hr
    simp only [runNodesHeap, runNodes]
    rw [set_getD_self heap r [] hr]
  | cons node rest ih =>
    intro r heap hr
    obtain ⟨p, keys⟩ := node
    rw [runNodesHeap_cons, runNodes_cons]
    cases h1 : lookupAll keys (heap.getD r []) with
    | error e0 => simp
    | ok inputs =>
      simp only []
      cases h2 : p.getControls inputs with
      | error e0 => simp
      | ok controls =>
        simp only []
        cases h3 : p.getSignal controls with
        | error e0 => simp
        | ok signal =>
          simp only []
          have hr' : r < (heap.set r (setKey (heap.getD r []) p.name
              (nodeRecord controls signal))).length := by simpa using hr
          rw [ih r _ hr']
          rw [getD_set_self heap r _ [] hr]
          cases hrest : runNodes rest (setKey (heap.getD r []) p.name
              (nodeRecord controls signal)) with
          | error e0 => simp [hrest]
          | ok out =>
            simp only [hrest, List.set_set]

/-- C9: running `get_controls` through a dict reference returns the very
reference it was given and updates the referenced heap cell — and no
other cell — to the namespace that the pure `get_controls` computes from
the cell's old contents: the caller-supplied mapping is the working
namespace (no copy) and is the same object as the returned namespace. -/
theorem getControlsHeap_mutates_in_place {T : Type} (g : ProcessorGroup T)
    (r : ℕ) (heap : List (Namespace T)) (hr : r < heap.length) :
    getControlsHeap g r heap =
      match g.getControls (heap.getD r []) with
      | .error e => .error e
      | .ok out => .ok (r, heap.set r out) := by
  unfold getControlsHeap ProcessorGroup.getControls
  rw [runNodesHeap_spec g.dag r heap hr]
  cases hrun : runNodes g.dag (heap.getD r []) with
  | error e => simp [hrun]
  | ok nsF =>
    simp only [hrun]
    rw [getD_set_self heap r nsF [] hr]
    cases hlastp : g.processors.getLast? with
    | none => simp [hlastp]
    | some lastP =>
      simp only [hlastp]
      cases hlk : lookupKey nsF lastP.name with
      | none => simp
      | some v =>
        cases v with
        | tensor t => simp
        | dict entries =>
          cases hsig : lookupKey entries "signal" with
          | none => simp [hsig]
          | some sig => simp [hsig, List.set_set]

/-- Witness for C9: on a one-element heap holding the `Add` example
inputs, the in-place run returns reference `0` and the heap whose single
cell now holds the full output namespace. -/
theorem getControlsHeap_mutates_in_place_witness :
    getControlsHeap addGroup 0 [addInputs] = .ok (0, [addOutputs]) := by
  have h := getControlsHeap_mutates_in_place addGroup 0 [addInputs] (by decide)
  rw [h]
  rfl

/-! ### C5: `Mix.get_controls` validates the time lengths -/

/-- C5: `Mix.get_controls` fails with `InvalidArgument` exactly when the
two signals differ in length along the time axis (axis index 1), and
succeeds with a controls dict when the lengths agree. -/
theorem mixGetControls_invalidArgument_iff (s1 s2 nn : Sig2) :
    (mixGetControls s1 s2 nn = .error .invalidArgument ↔ nTime s1 ≠ nTime s2) ∧
    (nTime s1 = nTime s2 →
      mixGetControls s1 s2 nn = .ok ⟨s1, s2, resample (sigmoidAll nn) (nTime s1)⟩) := by
  by_cases h : nTime s1 = nTime s2
  · refine ⟨?_, fun _ => by simp [mixGetControls, h]⟩
    simp [mixGetControls, h]
  · refine ⟨?_, fun hc => absurd hc h⟩
    simp [mixGetControls, h]

/-- Witness for C5: signals of time lengths 2 and 1 are rejected with
`InvalidArgument`; signals both of time length 1 are accepted. -/
theorem mixGetControls_invalidArgument_iff_witness :
    mixGetControls [[1, 2]] [[3]] [[0]] = .error .invalidArgument ∧
    mixGetControls [[1]] [[2]] [[0]] = .ok ⟨[[1]], [[2]], resample (sigmoidAll [[0]]) 1⟩ :=
  ⟨((mixGetControls_invalidArgument_iff [[1, 2]] [[3]] [[0]]).1).mpr (by decide),
   (mixGetControls_invalidArgument_iff [[1]] [[2]] [[0]]).2 (by decide)⟩

/-! ### C6, C7, C10: `Mix.get_signal` -/

lemma tfSqrt_abs (x : ℝ) : tfSqrt |x| = some (Real.sqrt |x|) := by
  unfold tfSqrt
  rw [if_neg (not_lt.mpr (abs_nonneg x))]

lemma mapRowOpt_total (f : ℝ → Option ℝ) (g : ℝ → ℝ) (hf : ∀ x, f x = some (g x)) :
    ∀ row : List ℝ, mapRowOpt f row = some (row.map g) := by
  intro row
  induction row with
  | nil => rfl
  | cons x rest ih => simp only [mapRowOpt, hf x, ih, List.map_cons]

lemma mapRowsOpt_total (f : ℝ → Option ℝ) (g : ℝ → ℝ) (hf : ∀ x, f x = some (g x)) :
    ∀ s : Sig2, mapRowsOpt f s = some (s.map (List.map g)) := by
  intro s
  induction s with
  | nil => rfl
  | cons row rest ih =>
    simp only [mapRowsOpt, mapRowOpt_total f g hf row, ih, List.map_cons]

lemma mixGetSignal_eq_formula (s1 s2 m : Sig2) :
    mixGetSignal s1 s2 m = some (mixFormula s1 s2 m) := by
  unfold mixGetSignal
  rw [mapRowsOpt_total _ (fun x => Real.sqrt |x|) (fun x => tfSqrt_abs x) m]
  rw [mapRowsOpt_total _ (fun x => Real.sqrt |x - 1|) (fun x => tfSqrt_abs (x - 1)) m]
  simp only [mixFormula, List.map_map, Function.comp_def]

lemma zipWith_replicate_left {α β γ : Type} (f : α → β → γ) (w : α) :
    ∀ (row : List β) (n : ℕ), row.length = n →
      List.zipWith f (List.replicate n w) row = row.map (f w) := by
  intro row
  induction row with
  | nil => intro n h; subst h; rfl
  | cons x rest ih =>
    intro n h
    subst h
    rw [List.length_cons, List.replicate_succ, List.zipWith_cons_cons, List.map_cons,
        ih rest.length rfl]

lemma map2_uniform_left (f : ℝ → ℝ → ℝ) (w : ℝ) :
    ∀ (s : Sig2) (b t : ℕ), shape2 s = List.replicate b t →
      map2 f (uniform2 b t w) s = s.map (fun row => row.map (f w)) := by
  intro s
  induction s with
  | nil =>
    intro b t h
    have hb : b = 0 := by
      by_contra hb
      obtain ⟨b', rfl⟩ := Nat.exists_eq_succ_of_ne_zero hb
      simp [shape2, List.replicate_succ] at h
    subst hb
    rfl
  | cons row rest ih =>
    intro b t h
    cases b with
    | zero => simp [shape2] at h
    | succ b' =>
      simp only [shape2, List.map_cons, List.replicate_succ, List.cons.injEq] at h
      obtain ⟨hrow, hrest⟩ := h
      simp only [map2, uniform2, List.replicate_succ, List.zipWith_cons_cons, List.map_cons]
      rw [zipWith_replicate_left f w row t hrow]
      have ih' := ih b' t hrest
      simp only [map2, uniform2] at ih'
      rw [ih']

lemma shape2_uniform2 (b t : ℕ) (x : ℝ) :
    shape2 (uniform2 b t x) = List.replicate b t := by
  simp [shape2, uniform2, List.map_replicate]

lemma mixGetSignal_uniform (s1 s2 : Sig2) (b t : ℕ) (x : ℝ)
    (h1 : shape2 s1 = List.replicate b t) (h2 : shape2 s2 = List.replicate b t) :
    mixGetSignal s1 s2 (uniform2 b t x) =
      some (map2 (fun a c => Real.sqrt |x| * a + (1 - Real.sqrt |x - 1|) * c) s1 s2) := by
  rw [mixGetSignal_eq_formula]
  unfold mixFormula
  rw [show (uniform2 b t x).map (List.map (fun y => Real.sqrt |y|)) =
        uniform2 b t (Real.sqrt |x|) by simp [uniform2, List.map_replicate]]
  rw [show (uniform2 b t x).map (List.map (fun y => 1 - Real.sqrt |y - 1|)) =
        uniform2 b t (1 - Real.sqrt |x - 1|) by simp [uniform2, List.map_replicate]]
  rw [map2_uniform_left _ _ s1 b t h1, map2_uniform_left _ _ s2 b t h2]
  simp only [map2, List.zipWith_map]

/-- C6: for every `signal_one`, `signal_two` and `mix_level` of matching
shape, `Mix.get_signal` returns
`sqrt |mix_level| * signal_one + (1 - sqrt |mix_level - 1|) * signal_two`
elementwise; in particular, with `mix_level` uniformly `0.5` at every
timestep it returns exactly
`sqrt 0.5 * signal_one + (1 - sqrt 0.5) * signal_two`. -/
theorem mixGetSignal_constant_power_formula :
    (∀ s1 s2 m : Sig2, shape2 s1 = shape2 m → shape2 s2 = shape2 m →
      mixGetSignal s1 s2 m = some (mixFormula s1 s2 m)) ∧
    (∀ (s1 s2 : Sig2) (b t : ℕ),
      shape2 s1 = List.replicate b t → shape2 s2 = List.replicate b t →
      mixGetSignal s1 s2 (uniform2 b t (1 / 2)) =
        some (map2 (fun a c => Real.sqrt (1 / 2) * a + (1 - Real.sqrt (1 / 2)) * c) s1 s2)) := by
  constructor
  · intro s1 s2 m _ _
    exact mixGetSignal_eq_formula s1 s2 m
  · intro s1 s2 b t h1 h2
    have habs : |(1 / 2 : ℝ)| = 1 / 2 := abs_of_nonneg (by norm_num)
    have habs' : |(1 / 2 : ℝ) - 1| = 1 / 2 := by
      rw [abs_of_nonpos (by norm_num)]
      norm_num
    rw [mixGetSignal_uniform s1 s2 b t (1 / 2) h1 h2, habs, habs']

/-- Witness for C6: a concrete 1 × 1 instance with `mix_level = 0.5`:
the output is `sqrt 0.5 * 3 + (1 - sqrt 0.5) * 5`. -/
theorem mixGetSignal_constant_power_formula_witness :
    mixGetSignal [[3]] [[5]] (uniform2 1 1 (1 / 2)) =
      some [[Real.sqrt (1 / 2) * 3 + (1 - Real.sqrt (1 / 2)) * 5]] := by
  have h := mixGetSignal_constant_power_formula.2 [[3]] [[5]] 1 1 (by decide) (by decide)
  rw [h]
  rfl

/-- Counterexample for C7: with `mix_level` uniformly `0`, `Mix.get_signal`
does not return `signal_one` unchanged — both crossfade weights are `0`
there (`sqrt |0| = 0` and `1 - sqrt |0 - 1| = 0`), so for
`signal_one = [[1]]`, `signal_two = [[2]]` the output is `[[0]]`, not
`[[1]]`. -/
theorem mixGetSignal_zero_not_signal_one :
    mixGetSignal [[1]] [[2]] [[0]] = some [[0]] ∧
    ¬ mixGetSignal [[1]] [[2]] [[0]] = some [[1]] := by
  have h0 : mixGetSignal [[(1 : ℝ)]] [[(2 : ℝ)]] [[(0 : ℝ)]] = some [[0]] := by
    rw [mixGetSignal_eq_formula]
    simp only [mixFormula, map2, List.map_cons, List.map_nil, List.zipWith_cons_cons,
      List.zipWith_nil_right]
    norm_num [abs_of_nonpos]
  refine ⟨h0, fun hc => ?_⟩
  rw [h0] at hc
  simp only [Option.some.injEq, List.cons.injEq, and_true] at hc
  exact absurd hc (by norm_num)

/-- C7 (amended): with `mix_level` uniformly `0` at every timestep,
`Mix.get_signal` returns the all-zero signal (both crossfade weights
vanish), and with `mix_level` uniformly `1` it returns
`signal_one + signal_two` elementwise (both weights are one). -/
theorem mixGetSignal_uniform_boundaries (s1 s2 : Sig2) (b t : ℕ)
    (h1 : shape2 s1 = List.replicate b t) (h2 : shape2 s2 = List.replicate b t) :
    mixGetSignal s1 s2 (uniform2 b t 0) = some (map2 (fun _ _ => (0 : ℝ)) s1 s2) ∧
    mixGetSignal s1 s2 (uniform2 b t 1) = some (map2 (fun a c => a + c) s1 s2) := by
  constructor
  · rw [mixGetSignal_uniform s1 s2 b t 0 h1 h2]
    norm_num [abs_of_nonpos]
  · rw [mixGetSignal_uniform s1 s2 b t 1 h1 h2]
    norm_num

/-- Witness for C7 (amended): concretely, `signal_one = [[1]]`,
`signal_two = [[2]]` give output `[[0]]` at `mix_level = 0` and
`[[3]]` ( = signal_one + signal_two) at `mix_level = 1`. -/
theorem mixGetSignal_uniform_boundaries_witness :
    mixGetSignal [[1]] [[2]] (uniform2 1 1 0) = some [[(0 : ℝ)]] ∧
    mixGetSignal [[1]] [[2]] (uniform2 1 1 1) = some [[(1 : ℝ) + 2]] := by
  have h := mixGetSignal_uniform_boundaries [[1]] [[2]] 1 1 (by decide) (by decide)
  exact ⟨by rw [h.1]; rfl, by rw [h.2]; rfl⟩

/-- C10: `Mix.get_signal` is total in `mix_level`: the absolute value
taken inside each square root keeps the square-root argument
nonnegative, so every real `mix_level` — including negative values —
yields a result (never the NaN that a bare `tf.sqrt` would produce on a
negative argument); a negative value is weighted by its magnitude. -/
theorem mixGetSignal_total (s1 s2 m : Sig2) (x : ℝ) (hx : x < 0) :
    (∃ out, mixGetSignal s1 s2 m = some out) ∧
    tfSqrt x = none ∧
    tfSqrt |x| = some (Real.sqrt (-x)) := by
  refine ⟨⟨mixFormula s1 s2 m, mixGetSignal_eq_formula s1 s2 m⟩, ?_, ?_⟩
  · unfold tfSqrt
    rw [if_pos hx]
  · rw [tfSqrt_abs, abs_of_neg hx]

/-- Witness for C10: with `mix_level = [[-1]]` the output exists, while
a bare `tf.sqrt (-1)` would be NaN; the weight used is `sqrt 1`. -/
theorem mixGetSignal_total_witness :
    (∃ out, mixGetSignal [[1]] [[2]] [[-1]] = some out) ∧
    tfSqrt (-1) = none ∧
    tfSqrt |(-1 : ℝ)| = some (Real.sqrt (-(-1))) :=
  mixGetSignal_total [[1]] [[2]] [[-1]] (-1) (by norm_num)

end DDSP
